import Mathlib

/-!
Shallow embedding of `src/app.py` (string_analyzer): the string-analysis
and content-addressed persistence pipeline.  Python strings are modelled
as Lean `String` (sequences of code points); the SQLite-backed table is
modelled as a list of records keyed by `id`; fallible request handlers
return `Except String _` with the handler's error message.  Wall-clock
data (`created_at`) is not modelled.
-/

set_option maxRecDepth 4000

/-- `leadsWith p l` holds when `p` is an initial segment of `l`
(the primitive behind Python's substring test). -/
def leadsWith : List Char → List Char → Bool
  | [], _ => true
  | _ :: _, [] => false
  | a :: p, b :: l => a == b && leadsWith p l

/-- `occursIn p l` holds when `p` occurs contiguously inside `l`:
the semantics of Python's `p in l` for strings. -/
def occursIn (p : List Char) : List Char → Bool
  | [] => leadsWith p []
  | l@(_ :: rest) => leadsWith p l || occursIn p rest

/-- Python's `pat in s` substring test on strings. -/
def containsSubstring (s pat : String) : Bool :=
  occursIn pat.toList s.toList

/-- Python's `str.lower()` (ASCII case folding in this embedding). -/
def lowerStr (s : String) : String :=
  String.mk (s.toList.map Char.toLower)

/-- `splitWSAux l cur` is the worker for Python's `str.split()` with no
argument: splits on runs of whitespace, discarding empty tokens.  `cur`
holds the current in-progress token, reversed. -/
def splitWSAux : List Char → List Char → List (List Char)
  | [], cur => if cur.isEmpty then [] else [cur.reverse]
  | c :: rest, cur =>
    if c.isWhitespace then
      if cur.isEmpty then splitWSAux rest []
      else cur.reverse :: splitWSAux rest []
    else splitWSAux rest (c :: cur)

/-- Python's `value.split()`: the maximal non-whitespace tokens in order. -/
def pyWords (value : String) : List (List Char) :=
  splitWSAux value.toList []

/-- Decimal digits to a natural number (for `int(...)` parsing). -/
def digitsToNat (l : List Char) : Nat :=
  l.foldl (fun acc c => acc * 10 + (c.toNat - 48)) 0

/-- Python's `int(token)` on a whitespace-free token: an optional sign
followed by a non-empty run of decimal digits; anything else fails.
(Underscore digit grouping and non-ASCII digits are not modelled.) -/
def parseInt (l : List Char) : Option Int :=
  match l with
  | [] => none
  | '+' :: rest =>
    if !rest.isEmpty && rest.all Char.isDigit then some (digitsToNat rest : Int) else none
  | '-' :: rest =>
    if !rest.isEmpty && rest.all Char.isDigit then some (-(digitsToNat rest : Int)) else none
  | l' =>
    if l'.all Char.isDigit then some (digitsToNat l' : Int) else none

-- --- Helper Functions (src/app.py lines 17-39) ---

/-- Modelled from the spec: `compute_sha256` (app.py line 17) delegates to
`hashlib.sha256`, an external library outside this repository.  The spec
requires only a deterministic, stable hex digest that is a pure function of
the value; we model it as a hex encoding of the code points.  Collision
resistance is not modelled and no claim depends on it. -/
def compute_sha256 (value : String) : String :=
  "-".intercalate (value.toList.map (fun c => String.mk (Nat.toDigits 16 c.toNat)))

/-- `is_palindrome` (app.py line 20): keep alphanumeric characters,
lower-case them, compare with the reversal. -/
def is_palindrome (value : String) : Bool :=
  let cleaned := (value.toList.filter (fun c => c.isAlphanum)).map Char.toLower
  cleaned == cleaned.reverse

/-- `bumpChar freq c` performs `freq[c] = freq.get(c, 0) + 1` on an
insertion-ordered association list (the model of a Python dict). -/
def bumpChar : List (Char × Nat) → Char → List (Char × Nat)
  | [], c => [(c, 1)]
  | (c', n) :: rest, c =>
    if c' = c then (c', n + 1) :: rest else (c', n) :: bumpChar rest c

/-- `get_character_frequency_map` (app.py line 24): tally each character. -/
def get_character_frequency_map (value : String) : List (Char × Nat) :=
  value.toList.foldl bumpChar []

/-- Result shape of `analyze_string` (app.py line 30). -/
structure AnalysisProps where
  length : Nat
  is_palindrome : Bool
  unique_characters : Nat
  word_count : Nat
  sha256_hash : String
  character_frequency_map : List (Char × Nat)
deriving DecidableEq, Repr

/-- `analyze_string` (app.py line 30).  `len(set(value))` is modelled as
the length of the deduplicated character list. -/
def analyze_string (value : String) : AnalysisProps :=
  { length := value.toList.length
    is_palindrome := is_palindrome value
    unique_characters := value.toList.dedup.length
    word_count := (pyWords value).length
    sha256_hash := compute_sha256 value
    character_frequency_map := get_character_frequency_map value }

-- --- Model (src/app.py lines 42-65) ---

/-- `StringRecord` (app.py line 42); `created_at` (wall-clock) omitted. -/
structure StringRecord where
  id : String
  value : String
  length : Nat
  is_palindrome : Bool
  unique_characters : Nat
  word_count : Nat
  character_frequency_map : List (Char × Nat)
deriving DecidableEq, Repr

/-- The record persisted by `analyze_and_store_string` for `value`:
every field is computed from `analyze_string value` (app.py lines 103-111). -/
def mkRecord (value : String) : StringRecord :=
  let props := analyze_string value
  { id := props.sha256_hash
    value := value
    length := props.length
    is_palindrome := props.is_palindrome
    unique_characters := props.unique_characters
    word_count := props.word_count
    character_frequency_map := props.character_frequency_map }

/-- The database table, keyed by `id` (primary-key lookup = `find?` by id). -/
def Store := List StringRecord

/-- `StringRecord.query.get(string_id)`: primary-key lookup. -/
def lookupId (store : List StringRecord) (string_id : String) : Option StringRecord :=
  store.find? (fun r => r.id == string_id)

-- --- POST /strings (app.py lines 82-116) ---

/-- `analyze_and_store_string` (app.py line 83) for a string-typed value:
analyze, reject when a record with the same hash id exists (409, store
untouched), otherwise persist the new record.  Returns the response and
the resulting store. -/
def analyze_and_store_string (store : List StringRecord) (value : String) :
    Except String StringRecord × List StringRecord :=
  let props := analyze_string value
  let string_id := props.sha256_hash
  match lookupId store string_id with
  | some _ => (.error "String already exists", store)
  | none =>
    let record := mkRecord value
    (.ok record, store ++ [record])

-- --- GET /strings/{value} (app.py lines 121-129) ---

/-- `get_specific_string` (app.py line 122): hash the value, look up by id. -/
def get_specific_string (store : List StringRecord) (string_value : String) :
    Except String StringRecord :=
  let hash_value := compute_sha256 string_value
  match lookupId store hash_value with
  | some record => .ok record
  | none => .error "String not found"

-- --- GET /strings with filters (app.py lines 135-174) ---

/-- The optional filter criteria of `get_all_strings` (app.py lines 141-164).
`min_length`, `max_length` and `word_count` are parsed with `type=int`
(so they may be negative); `contains_character` is the raw query
parameter string. -/
structure Filters where
  is_palindrome : Option Bool := none
  min_length : Option Int := none
  max_length : Option Int := none
  word_count : Option Int := none
  contains_character : Option String := none
deriving DecidableEq, Repr

/-- The `is_palindrome` criterion (app.py lines 141-144): absent means
no constraint, present means exact match. -/
def palOk (o : Option Bool) (r : StringRecord) : Bool :=
  match o with
  | none => true
  | some b => r.is_palindrome == b

/-- The `min_length` criterion (app.py lines 146-149):
`StringRecord.length >= min_length`. -/
def minLenOk (o : Option Int) (r : StringRecord) : Bool :=
  match o with
  | none => true
  | some n => decide (n ≤ (r.length : Int))

/-- The `max_length` criterion (app.py lines 151-154):
`StringRecord.length <= max_length`. -/
def maxLenOk (o : Option Int) (r : StringRecord) : Bool :=
  match o with
  | none => true
  | some n => decide ((r.length : Int) ≤ n)

/-- The `word_count` criterion (app.py lines 156-159): exact match. -/
def wordCountOk (o : Option Int) (r : StringRecord) : Bool :=
  match o with
  | none => true
  | some n => decide ((r.word_count : Int) = n)

/-- The `contains_character` criterion (app.py lines 161-164): an empty
string is falsy in Python (`if contains_character:`) and imposes no
constraint; a present non-empty one is SQL `contains`, i.e. a substring
test on `value`. -/
def containsOk (o : Option String) (r : StringRecord) : Bool :=
  match o with
  | none => true
  | some s => if s = "" then true else containsSubstring r.value s

/-- One record against the filter conjunction of `get_all_strings`
(app.py lines 141-164): each supplied criterion narrows the query, so a
record is returned iff it passes all of them. -/
def matchesFilters (f : Filters) (r : StringRecord) : Bool :=
  palOk f.is_palindrome r && minLenOk f.min_length r && maxLenOk f.max_length r &&
    wordCountOk f.word_count r && containsOk f.contains_character r

/-- `get_all_strings` (app.py line 136): all records passing every
supplied criterion. -/
def get_all_strings (store : List StringRecord) (f : Filters) : List StringRecord :=
  store.filter (fun r => matchesFilters f r)

-- --- Natural language filtering (app.py lines 196-224) ---

/-- `takeUntilOcc p l`: the longest initial part of `l` before the next
occurrence of `p` (the worker delimiting Python's `split(sep)` pieces). -/
def takeUntilOcc (p : List Char) : List Char → List Char
  | [] => []
  | l@(c :: rest) => if leadsWith p l then [] else c :: takeUntilOcc p rest

/-- `segAfterFirst p l`: Python's `l.split(p)[1]` — the segment strictly
between the first occurrence of `p` and the next one (or the end);
`none` when `p` does not occur. -/
def segAfterFirst (p : List Char) : List Char → Option (List Char)
  | [] => if leadsWith p [] then some [] else none
  | l@(_ :: rest) =>
    if leadsWith p l then some (takeUntilOcc p (l.drop p.length))
    else segAfterFirst p rest

/-- Rule 3's number (app.py lines 212-216):
`int(q.split("longer than")[1].split()[0])`, with `none` on any failure
(the `except: pass`). -/
def longerThanNum (q : String) : Option Int :=
  match segAfterFirst "longer than".toList q.toList with
  | none => none
  | some seg =>
    match splitWSAux seg [] with
    | [] => none
    | tok :: _ => parseInt tok

/-- Rule 4's letter (app.py lines 217-221): the first of the 26 lowercase
letters `ch` such that `" ch"` (space + letter) occurs in `q`. -/
def firstContainedLetter (q : String) : Option Char :=
  "abcdefghijklmnopqrstuvwxyz".toList.find?
    (fun ch => containsSubstring q (String.mk [' ', ch]))

/-- The four independent keyword rules of `filter_by_natural_language`
(app.py lines 207-221), each filling its own key of `parsed_filters`;
`max_length` is never produced. -/
def applyRules (q : String) : Filters :=
  { is_palindrome :=
      if containsSubstring q "palindromic" then some true else none
    word_count :=
      if containsSubstring q "single word" || containsSubstring q "one word"
      then some 1 else none
    min_length :=
      if containsSubstring q "longer than" then
        (longerThanNum q).map (fun num => num + 1)
      else none
    max_length := none
    contains_character :=
      if containsSubstring q "contain" then
        (firstContainedLetter q).map (fun ch => String.mk [ch])
      else none }

/-- Whether `parsed_filters` is the empty dict (`if not parsed_filters:`). -/
def Filters.isEmptyMap (f : Filters) : Bool :=
  f.is_palindrome.isNone && f.min_length.isNone && f.max_length.isNone &&
    f.word_count.isNone && f.contains_character.isNone

/-- The parsing half of `filter_by_natural_language` (app.py lines
197-224): reject a missing/empty query, lower-case it, run the four
keyword rules, and fail when no rule produced a criterion. -/
def interpret (query_text : String) : Except String Filters :=
  if query_text = "" then .error "Missing query parameter"
  else
    let q := lowerStr query_text
    let parsed_filters := applyRules q
    if parsed_filters.isEmptyMap then
      .error "Unable to parse natural language query"
    else .ok parsed_filters

-- --- Specification-side characterizations ---

/-- `countRuns l inRun` counts the maximal non-whitespace runs of `l`,
`inRun` recording whether the previous character belonged to a run: a run
is counted exactly when it starts. -/
def countRuns : List Char → Bool → Nat
  | [], _ => 0
  | c :: rest, inRun =>
    if c.isWhitespace then countRuns rest false
    else if inRun then countRuns rest true
    else countRuns rest true + 1

/-- Number of maximal non-whitespace runs of a character list. -/
def runCount (l : List Char) : Nat := countRuns l false

/-- Total of the occurrence counts of a frequency map. -/
def sumCounts (l : List (Char × Nat)) : Nat := (l.map Prod.snd).sum

/-- Internal consistency of a stored record: the frequency counts total
the length, and the map has one entry per distinct character. -/
def recordInv (r : StringRecord) : Prop :=
  sumCounts r.character_frequency_map = r.length ∧
  r.character_frequency_map.length = r.unique_characters

-- --- Helper lemmas ---

theorem splitWSAux_length (l : List Char) : ∀ cur : List Char,
    (splitWSAux l cur).length =
      countRuns l (!cur.isEmpty) + (if cur.isEmpty then 0 else 1) := by
  induction l with
  | nil => intro cur; cases cur <;> simp [splitWSAux, countRuns]
  | cons c rest ih =>
    intro cur
    by_cases hw : c.isWhitespace
    · cases cur with
      | nil => simp [splitWSAux, countRuns, hw, ih]
      | cons a as => simp [splitWSAux, countRuns, hw, ih]
    · cases cur with
      | nil => simp [splitWSAux, countRuns, hw, ih]
      | cons a as => simp [splitWSAux, countRuns, hw, ih]

theorem countRuns_eq_zero {l : List Char} (h : ∀ c ∈ l, c.isWhitespace) :
    ∀ b, countRuns l b = 0 := by
  induction l with
  | nil => intro b; rfl
  | cons c rest ih =>
    intro b
    have hc : c.isWhitespace := h c (List.mem_cons_self c rest)
    simp [countRuns, hc, ih (fun x hx => h x (List.mem_cons_of_mem c hx))]

-- --- Claim theorems ---

/-- Claim C4: `is_palindrome` is true iff the alphanumeric-only,
lower-cased character sequence equals its own reversal; an input with no
alphanumeric characters (in particular the empty string) is a palindrome;
and the three concrete examples hold. -/
theorem is_palindrome_correct :
    (∀ s : String, is_palindrome s = true ↔
      (s.toList.filter (fun c => c.isAlphanum)).map Char.toLower =
        ((s.toList.filter (fun c => c.isAlphanum)).map Char.toLower).reverse) ∧
    (∀ s : String, (∀ c ∈ s.toList, ¬ c.isAlphanum) → is_palindrome s = true) ∧
    is_palindrome "" = true ∧
    is_palindrome "A man a plan a canal Panama" = true ∧
    is_palindrome "hello" = false := by
  refine ⟨fun s => ?_, fun s h => ?_, rfl, by decide, by decide⟩
  · simp [is_palindrome]
  · simp [is_palindrome,
      show List.filter (fun c => c.isAlphanum) s.data = [] from
        List.filter_eq_nil_iff.mpr h]

/-- Witness for C4: an all-punctuation string is a palindrome. -/
theorem is_palindrome_correct_witness : is_palindrome "?!, .." = true :=
  is_palindrome_correct.2.1 "?!, .." (by decide)

/-- Claim C7: the analyzer's `word_count` equals the number of maximal
non-whitespace runs; an all-whitespace (or empty) string yields 0; and
the two concrete examples hold. -/
theorem word_count_correct :
    (∀ s : String, (analyze_string s).word_count = runCount s.toList) ∧
    (∀ s : String, (∀ c ∈ s.toList, c.isWhitespace) →
      (analyze_string s).word_count = 0) ∧
    (analyze_string "  a  b c ").word_count = 3 ∧
    (analyze_string "").word_count = 0 := by
  have key : ∀ s : String, (analyze_string s).word_count = runCount s.toList := by
    intro s
    show (splitWSAux s.toList []).length = runCount s.toList
    simp [splitWSAux_length, runCount]
  refine ⟨key, fun s h => ?_, by decide, rfl⟩
  rw [key s, runCount, countRuns_eq_zero h]

/-- Witness for C7: a two-space string has word count 0. -/
theorem word_count_correct_witness : (analyze_string "  ").word_count = 0 :=
  word_count_correct.2.1 "  " (by decide)

/-- Claim C8: the content hash is a pure, deterministic function of the
value — two evaluations on the same string give the same digest. -/
theorem compute_sha256_deterministic (s t : String) (h : s = t) :
    compute_sha256 s = compute_sha256 t := by rw [h]

/-- Witness for C8 at a concrete string. -/
theorem compute_sha256_deterministic_witness :
    compute_sha256 "abc" = compute_sha256 "abc" :=
  compute_sha256_deterministic "abc" "abc" rfl

/-- Counterexample for C1: on the text "strings longer than 10 that
contain z" the interpreter does NOT produce
`{min_length: 11, contains_character: "z"}` — rule 4's a-to-z scan stops
at 'c' first (the `" c"` of `" contain"` occurs in the text). -/
theorem interpret_longer_contain_z_cex :
    interpret "strings longer than 10 that contain z" ≠
      Except.ok { min_length := some 11, contains_character := some "z" } := by
  have h1 : interpret "strings longer than 10 that contain z" =
      Except.ok { min_length := some 11, contains_character := some "c" } := rfl
  rw [h1]
  intro h
  exact absurd (Except.ok.inj h) (by decide)

/-- Claim C1 (amended): interpreting "strings longer than 10 that contain
z" produces exactly `{min_length: 11, contains_character: "c"}` — the
a-to-z scan of rule 4 picks 'c', the first letter appearing right after a
space (in `" contain"`), not 'z'. -/
theorem interpret_longer_contain_example :
    interpret "strings longer than 10 that contain z" =
      Except.ok { min_length := some 11, contains_character := some "c" } ∧
    firstContainedLetter (lowerStr "strings longer than 10 that contain z") =
      some 'c' :=
  ⟨rfl, rfl⟩

theorem palOk_iff (o : Option Bool) (r : StringRecord) :
    palOk o r = true ↔ ∀ b, o = some b → r.is_palindrome = b := by
  cases o <;> simp [palOk]

theorem minLenOk_iff (o : Option Int) (r : StringRecord) :
    minLenOk o r = true ↔ ∀ n, o = some n → n ≤ (r.length : Int) := by
  cases o <;> simp [minLenOk]

theorem maxLenOk_iff (o : Option Int) (r : StringRecord) :
    maxLenOk o r = true ↔ ∀ n, o = some n → (r.length : Int) ≤ n := by
  cases o <;> simp [maxLenOk]

theorem wordCountOk_iff (o : Option Int) (r : StringRecord) :
    wordCountOk o r = true ↔ ∀ n, o = some n → (r.word_count : Int) = n := by
  cases o <;> simp [wordCountOk]

theorem containsOk_iff (o : Option String) (r : StringRecord) :
    containsOk o r = true ↔
      ∀ s, o = some s → s ≠ "" → containsSubstring r.value s = true := by
  cases o with
  | none => simp [containsOk]
  | some s =>
    by_cases h : s = "" <;> simp [containsOk, h]

theorem mem_get_all_strings (f : Filters) (store : List StringRecord)
    (r : StringRecord) :
    r ∈ get_all_strings store f ↔
      r ∈ store ∧
      (∀ b, f.is_palindrome = some b → r.is_palindrome = b) ∧
      (∀ n, f.min_length = some n → n ≤ (r.length : Int)) ∧
      (∀ n, f.max_length = some n → (r.length : Int) ≤ n) ∧
      (∀ n, f.word_count = some n → (r.word_count : Int) = n) ∧
      (∀ s, f.contains_character = some s → s ≠ "" →
        containsSubstring r.value s = true) := by
  rw [get_all_strings, List.mem_filter, matchesFilters]
  simp only [Bool.and_eq_true, palOk_iff, minLenOk_iff, maxLenOk_iff,
    wordCountOk_iff, containsOk_iff, and_assoc]

theorem get_all_strings_empty (store : List StringRecord) :
    get_all_strings store {} = store :=
  List.filter_eq_self.mpr (fun _ _ => rfl)

/-- Claim C2: filtering returns exactly the records satisfying the
conjunction of all supplied criteria; an empty criteria set returns all
records; and on records of lengths 3, 7, 12 the criteria
`min_length=5, max_length=10` keep only the length-7 record. -/
theorem get_all_strings_conjunction :
    (∀ (f : Filters) (store : List StringRecord) (r : StringRecord),
      r ∈ get_all_strings store f ↔
        r ∈ store ∧
        (∀ b, f.is_palindrome = some b → r.is_palindrome = b) ∧
        (∀ n, f.min_length = some n → n ≤ (r.length : Int)) ∧
        (∀ n, f.max_length = some n → (r.length : Int) ≤ n) ∧
        (∀ n, f.word_count = some n → (r.word_count : Int) = n) ∧
        (∀ s, f.contains_character = some s → s ≠ "" →
          containsSubstring r.value s = true)) ∧
    (∀ store : List StringRecord, get_all_strings store {} = store) ∧
    get_all_strings [mkRecord "abc", mkRecord "abcdefg", mkRecord "abcdefghijkl"]
      { min_length := some 5, max_length := some 10 } = [mkRecord "abcdefg"] :=
  ⟨mem_get_all_strings, get_all_strings_empty, rfl⟩

/-- Witness for C2: the length-7 record passes the length-window filter. -/
theorem get_all_strings_conjunction_witness :
    mkRecord "abcdefg" ∈ get_all_strings
      [mkRecord "abc", mkRecord "abcdefg", mkRecord "abcdefghijkl"]
      { min_length := some 5, max_length := some 10 } := by
  apply (get_all_strings_conjunction.1 _ _ _).mpr
  refine ⟨by decide, ?_, ?_, ?_, ?_, ?_⟩
  · intro b h
    simp at h
  · intro n h
    simp at h
    subst h
    decide
  · intro n h
    simp at h
    subst h
    decide
  · intro n h
    simp at h
  · intro s h
    simp at h

theorem leadsWith_iff (p : List Char) : ∀ l, leadsWith p l = true ↔ ∃ t, l = p ++ t := by
  induction p with
  | nil => intro l; simp [leadsWith]
  | cons a p ih =>
    intro l
    cases l with
    | nil => simp [leadsWith]
    | cons b bs =>
      simp only [leadsWith, Bool.and_eq_true, beq_iff_eq, ih, List.cons_append,
        List.cons.injEq]
      constructor
      · rintro ⟨rfl, t, rfl⟩
        exact ⟨t, rfl, rfl⟩
      · rintro ⟨t, rfl, rfl⟩
        exact ⟨rfl, t, rfl⟩

theorem occursIn_iff (p : List Char) (l : List Char) :
    occursIn p l = true ↔ ∃ pre post, l = pre ++ p ++ post := by
  induction l with
  | nil =>
    rw [occursIn, leadsWith_iff]
    constructor
    · rintro ⟨t, ht⟩
      rcases List.append_eq_nil.mp ht.symm with ⟨rfl, rfl⟩
      exact ⟨[], [], rfl⟩
    · rintro ⟨pre, post, h⟩
      rcases List.append_eq_nil.mp (List.append_eq_nil.mp h.symm).1 with ⟨rfl, rfl⟩
      exact ⟨post, h⟩
  | cons c rest ih =>
    rw [occursIn, Bool.or_eq_true, leadsWith_iff, ih]
    constructor
    · rintro (⟨t, ht⟩ | ⟨pre, post, hp⟩)
      · exact ⟨[], t, by simpa using ht⟩
      · exact ⟨c :: pre, post, by simp [hp]⟩
    · rintro ⟨pre, post, hp⟩
      cases pre with
      | nil => exact Or.inl ⟨post, by simpa using hp⟩
      | cons x xs =>
        rcases List.cons_eq_cons.mp hp with ⟨rfl, hrest⟩
        exact Or.inr ⟨xs, post, hrest⟩

/-- Claim C10: the `contains_character` criterion is a genuine substring
test (characterized here as the existence of a decomposition
`pre ++ pat ++ post`); any non-empty parameter — not just single
characters — is accepted and applied as that substring test over
`value`; and an empty-string parameter imposes no constraint at all. -/
theorem contains_character_substring :
    (∀ s pat : String, containsSubstring s pat = true ↔
      ∃ pre post, s.toList = pre ++ pat.toList ++ post) ∧
    (∀ (store : List StringRecord) (sub : String), sub ≠ "" →
      get_all_strings store { contains_character := some sub } =
        store.filter (fun r => containsSubstring r.value sub)) ∧
    (∀ store : List StringRecord,
      get_all_strings store { contains_character := some "" } = store) := by
  refine ⟨fun s pat => occursIn_iff _ _, fun store sub h => ?_, fun store => ?_⟩
  · rw [get_all_strings]
    apply List.filter_congr
    intro r _
    simp [matchesFilters, palOk, minLenOk, maxLenOk, wordCountOk, containsOk, h]
  · exact List.filter_eq_self.mpr (fun r _ => rfl)

/-- Witness for C10: the two-character parameter "ab" acts as a
substring filter. -/
theorem contains_character_substring_witness :
    get_all_strings [mkRecord "xaby"] { contains_character := some "ab" } =
      [mkRecord "xaby"].filter (fun r => containsSubstring r.value "ab") :=
  contains_character_substring.2.1 [mkRecord "xaby"] "ab" (by decide)

theorem create_of_not_found {store : List StringRecord} {s : String}
    (h : lookupId store (compute_sha256 s) = none) :
    analyze_and_store_string store s = (.ok (mkRecord s), store ++ [mkRecord s]) := by
  rw [analyze_and_store_string,
    show (analyze_string s).sha256_hash = compute_sha256 s from rfl, h]

theorem lookupId_append_self (store : List StringRecord) (s : String)
    (h : lookupId store (compute_sha256 s) = none) :
    lookupId (store ++ [mkRecord s]) (compute_sha256 s) = some (mkRecord s) := by
  rw [lookupId] at h ⊢
  rw [List.find?_append, h]
  simp [List.find?, show (mkRecord s).id = compute_sha256 s from rfl]

/-- Claim C3: when no record with id `hash(s)` exists, `create(s)`
succeeds and persists the record built from `analyze(s)`; an immediate
second `create(s)` fails with the duplicate error and leaves the store
exactly as it was after the first create (no mutation). -/
theorem create_then_create (s : String) (store : List StringRecord)
    (h : lookupId store (compute_sha256 s) = none) :
    analyze_and_store_string store s = (.ok (mkRecord s), store ++ [mkRecord s]) ∧
    analyze_and_store_string (store ++ [mkRecord s]) s =
      (.error "String already exists", store ++ [mkRecord s]) := by
  refine ⟨create_of_not_found h, ?_⟩
  rw [analyze_and_store_string,
    show (analyze_string s).sha256_hash = compute_sha256 s from rfl,
    lookupId_append_self store s h]

/-- Witness for C3: create "ab" twice starting from the empty store. -/
theorem create_then_create_witness :
    analyze_and_store_string [] "ab" = (.ok (mkRecord "ab"), [mkRecord "ab"]) ∧
    analyze_and_store_string [mkRecord "ab"] "ab" =
      (.error "String already exists", [mkRecord "ab"]) := by
  have h := create_then_create "ab" [] rfl
  simpa using h

/-- Claim C6: after a successful `create(s)`, `getByValue(s)` — which
computes `id = hash(s)` and looks up by that id — returns a record whose
`value` is `s` and whose `id` is `hash(s)`. -/
theorem get_after_create (s : String) (store : List StringRecord)
    (h : lookupId store (compute_sha256 s) = none) :
    get_specific_string ((analyze_and_store_string store s).2) s = .ok (mkRecord s) ∧
    (mkRecord s).value = s ∧ (mkRecord s).id = compute_sha256 s := by
  refine ⟨?_, rfl, rfl⟩
  rw [create_of_not_found h]
  show get_specific_string (store ++ [mkRecord s]) s = Except.ok (mkRecord s)
  rw [get_specific_string, lookupId_append_self store s h]

/-- Witness for C6: lookup of "ab" right after its creation. -/
theorem get_after_create_witness :
    get_specific_string ((analyze_and_store_string [] "ab").2) "ab" =
      .ok (mkRecord "ab") ∧
    (mkRecord "ab").value = "ab" ∧ (mkRecord "ab").id = compute_sha256 "ab" :=
  get_after_create "ab" [] rfl

theorem applyRules_isEmptyMap (q : String) :
    (applyRules q).isEmptyMap = true ↔
      (containsSubstring q "palindromic" = false ∧
       containsSubstring q "single word" = false ∧
       containsSubstring q "one word" = false ∧
       (containsSubstring q "longer than" = true → longerThanNum q = none) ∧
       (containsSubstring q "contain" = true → firstContainedLetter q = none)) := by
  cases h1 : containsSubstring q "palindromic" <;>
  cases h2 : containsSubstring q "single word" <;>
  cases h3 : containsSubstring q "one word" <;>
  cases h4 : containsSubstring q "longer than" <;>
  cases h5 : containsSubstring q "contain" <;>
    simp [applyRules, Filters.isEmptyMap, h1, h2, h3, h4, h5,
      Option.isNone_iff_eq_none, Option.map_eq_none']

theorem interpret_eq_parse_error (q : String) (h : q ≠ "") :
    (interpret q = .error "Unable to parse natural language query") ↔
      (applyRules (lowerStr q)).isEmptyMap = true := by
  rw [interpret, if_neg h]
  cases he : (applyRules (lowerStr q)).isEmptyMap <;> simp [he]

/-- Claim C5: for every non-empty query text, `interpret` fails with the
parse error exactly when none of the four keyword rules produced a
criterion (no "palindromic", no "single word"/"one word", the
"longer than" rule either absent or its number unparseable, and the
"contain" rule either absent or finding no space-preceded letter); in
particular `interpret "banana"` fails with the parse error. -/
theorem interpret_error_iff_no_rule :
    (∀ q : String, q ≠ "" →
      ((interpret q = .error "Unable to parse natural language query") ↔
        (containsSubstring (lowerStr q) "palindromic" = false ∧
         containsSubstring (lowerStr q) "single word" = false ∧
         containsSubstring (lowerStr q) "one word" = false ∧
         (containsSubstring (lowerStr q) "longer than" = true →
           longerThanNum (lowerStr q) = none) ∧
         (containsSubstring (lowerStr q) "contain" = true →
           firstContainedLetter (lowerStr q) = none)))) ∧
    interpret "banana" = .error "Unable to parse natural language query" := by
  refine ⟨fun q h => ?_, rfl⟩
  rw [interpret_eq_parse_error q h, applyRules_isEmptyMap]

/-- Witness for C5: "contain" fires rule 4's keyword but no letter
follows a space, so the whole query is unparseable. -/
theorem interpret_error_iff_no_rule_witness :
    interpret "contain" = .error "Unable to parse natural language query" :=
  (interpret_error_iff_no_rule.1 "contain" (by decide)).mpr
    ⟨rfl, rfl, rfl, fun h => absurd h (by decide), fun _ => rfl⟩

theorem sumCounts_bumpChar (acc : List (Char × Nat)) (c : Char) :
    sumCounts (bumpChar acc c) = sumCounts acc + 1 := by
  induction acc with
  | nil => rfl
  | cons p rest ih =>
    obtain ⟨c', n⟩ := p
    by_cases h : c' = c <;> simp [bumpChar, h, sumCounts] at ih ⊢ <;> omega

theorem sumCounts_foldl (l : List Char) : ∀ acc : List (Char × Nat),
    sumCounts (l.foldl bumpChar acc) = sumCounts acc + l.length := by
  induction l with
  | nil => intro acc; simp
  | cons c rest ih =>
    intro acc
    rw [List.foldl_cons, ih, sumCounts_bumpChar]
    simp
    omega

theorem keys_bumpChar (acc : List (Char × Nat)) (c : Char) :
    (bumpChar acc c).map Prod.fst =
      if c ∈ acc.map Prod.fst then acc.map Prod.fst
      else acc.map Prod.fst ++ [c] := by
  induction acc with
  | nil => simp [bumpChar]
  | cons p rest ih =>
    obtain ⟨c', n⟩ := p
    by_cases h : c' = c
    · subst h
      simp [bumpChar]
    · have hne : ¬ c = c' := fun hcc => h hcc.symm
      simp only [bumpChar, if_neg h, List.map_cons, ih, List.mem_cons, hne, false_or]
      by_cases hm : c ∈ rest.map Prod.fst <;> simp [hm]

theorem keys_foldl_mem (l : List Char) : ∀ (acc : List (Char × Nat)) (a : Char),
    (a ∈ (l.foldl bumpChar acc).map Prod.fst) ↔ a ∈ acc.map Prod.fst ∨ a ∈ l := by
  induction l with
  | nil => intro acc a; simp
  | cons c rest ih =>
    intro acc a
    rw [List.foldl_cons, ih, keys_bumpChar]
    by_cases hm : c ∈ acc.map Prod.fst
    · rw [if_pos hm]
      constructor
      · rintro (h | h)
        exacts [Or.inl h, Or.inr (List.mem_cons_of_mem c h)]
      · rintro (h | h)
        · exact Or.inl h
        · rcases List.mem_cons.mp h with rfl | h2
          exacts [Or.inl hm, Or.inr h2]
    · rw [if_neg hm]
      simp [List.mem_append, List.mem_cons, or_assoc]

theorem keys_foldl_nodup (l : List Char) : ∀ acc : List (Char × Nat),
    (acc.map Prod.fst).Nodup → ((l.foldl bumpChar acc).map Prod.fst).Nodup := by
  induction l with
  | nil => intro acc h; simpa using h
  | cons c rest ih =>
    intro acc h
    rw [List.foldl_cons]
    apply ih
    rw [keys_bumpChar]
    by_cases hm : c ∈ acc.map Prod.fst
    · simpa [hm] using h
    · simp [hm, List.nodup_append, h, List.disjoint_singleton]

theorem freq_length (v : String) :
    (get_character_frequency_map v).length = v.toList.dedup.length := by
  have hn : ((get_character_frequency_map v).map Prod.fst).Nodup := by
    rw [get_character_frequency_map]
    exact keys_foldl_nodup v.toList [] (by simp)
  have hmem : ∀ a, a ∈ (get_character_frequency_map v).map Prod.fst ↔ a ∈ v.toList := by
    intro a
    rw [get_character_frequency_map, keys_foldl_mem]
    simp
  have hperm : ((get_character_frequency_map v).map Prod.fst).Perm v.toList.dedup := by
    rw [List.perm_ext_iff_of_nodup hn (List.nodup_dedup _)]
    intro a
    rw [hmem a, List.mem_dedup]
  calc (get_character_frequency_map v).length
      = ((get_character_frequency_map v).map Prod.fst).length :=
        (List.length_map _ _).symm
    _ = v.toList.dedup.length := hperm.length_eq

/-- Claim C9: every analysis result is internally consistent — the
frequency counts total the string's length and the map has exactly one
entry per distinct character — and the invariant is preserved by the
create operation: if every stored record satisfies it, so does every
record of the store after a create (records are never updated in place). -/
theorem analysis_consistency :
    (∀ v : String,
      sumCounts (analyze_string v).character_frequency_map =
        (analyze_string v).length ∧
      (analyze_string v).character_frequency_map.length =
        (analyze_string v).unique_characters) ∧
    (∀ (store : List StringRecord) (s : String),
      (∀ r ∈ store, recordInv r) →
      ∀ r ∈ (analyze_and_store_string store s).2, recordInv r) := by
  have main : ∀ v : String,
      sumCounts (analyze_string v).character_frequency_map =
        (analyze_string v).length ∧
      (analyze_string v).character_frequency_map.length =
        (analyze_string v).unique_characters := by
    intro v
    constructor
    · show sumCounts (v.toList.foldl bumpChar []) = v.toList.length
      rw [sumCounts_foldl]
      simp [sumCounts]
    · exact freq_length v
  refine ⟨main, fun store s h r hr => ?_⟩
  cases hcase : lookupId store (analyze_string s).sha256_hash with
  | some rec =>
    simp only [analyze_and_store_string, hcase] at hr
    exact h r hr
  | none =>
    simp only [analyze_and_store_string, hcase] at hr
    rcases List.mem_append.mp hr with hmem | hmem
    · exact h r hmem
    · have hr2 : r = mkRecord s := by simpa using hmem
      subst hr2
      exact main s

/-- Witness for C9: the record created for "aab" satisfies the
consistency invariant. -/
theorem analysis_consistency_witness : recordInv (mkRecord "aab") := by
  have h0 : ∀ r ∈ ([] : List StringRecord), recordInv r := by
    intro r hr
    cases hr
  apply analysis_consistency.2 [] "aab" h0 (mkRecord "aab")
  show mkRecord "aab" ∈ [mkRecord "aab"]
  exact List.mem_singleton.mpr rfl
